import Mathlib

/-!
Verification of the inventory manager `inventario_sqlite.py`.

The core under study is the repository/cache class `Inventario`: a persistent
`productos` table (modelled as an association list keyed by id, together with
the AUTOINCREMENT counter) and two in-memory structures, `_productos_por_id`
(id to `Producto`) and `_nombre_idx` (normalized name to set of ids).

Python strings are modelled as lists of code points (`List Char`); `str.strip`
drops whitespace at both ends and `str.lower` case-folds per character (ASCII,
matching `Char.toLower`).  Raising `ValueError` is modelled by `Except.error`.
Python `dict` is modelled by `AList` (insert replaces, pop erases), Python
`set` by `Finset`.  SQLite assigns ids from a strictly increasing counter
(`AUTOINCREMENT`), modelled by the `nextId` field.
-/

/-- A Python string: a sequence of code points. -/
abbrev Cadena := List Char

/-- Python `str.strip()`: remove leading and trailing whitespace. -/
def strip (s : Cadena) : Cadena :=
  ((s.dropWhile Char.isWhitespace).reverse.dropWhile Char.isWhitespace).reverse

/-- Python `str.lower()` (per-character case fold). -/
def lower (s : Cadena) : Cadena := s.map Char.toLower

/-- Python substring test `q in s` on strings. -/
def esSubcadena (q s : Cadena) : Bool := decide (q <:+: s)

/-- The `Producto` dataclass: `id` is `None` until the row is inserted. -/
structure Producto where
  id : Option Nat
  nombre : Cadena
  cantidad : Int
  precio : Rat
deriving DecidableEq

/-- One row of the `productos` table, keyed externally by id:
`(nombre, cantidad, precio)`. -/
abbrev Fila := Cadena × Int × Rat

/-- The row a `Producto` corresponds to in the table. -/
def rowOf (p : Producto) : Fila := (p.nombre, p.cantidad, p.precio)

/-- The persistent `productos` table: rows keyed by id. -/
abbrev Tabla := AList (fun _ : Nat => Fila)

/-- The whole state of an `Inventario` object: the SQLite table (with its
AUTOINCREMENT counter) and the two in-memory collections. -/
structure Inventario where
  store : Tabla
  nextId : Nat
  productos_por_id : AList (fun _ : Nat => Producto)
  nombre_idx : AList (fun _ : Cadena => Finset Nat)

/-- Embedding of `Inventario._normaliza`: `s.strip().lower()`. -/
def _normaliza (s : Cadena) : Cadena := lower (strip s)

/-- Embedding of `Inventario._indexar`. -/
def _indexar (inv : Inventario) (p : Producto) : Inventario :=
  match p.id with
  | none => inv
  | some pid =>
    let inv1 := { inv with productos_por_id := inv.productos_por_id.insert pid p }
    let clave := _normaliza p.nombre
    let s0 := (AList.lookup clave inv1.nombre_idx).getD ∅
    { inv1 with nombre_idx := inv1.nombre_idx.insert clave (insert pid s0) }

/-- Embedding of `Inventario._desindexar`. -/
def _desindexar (inv : Inventario) (p : Producto) : Inventario :=
  match p.id with
  | none => inv
  | some pid =>
    let inv1 := { inv with productos_por_id := inv.productos_por_id.erase pid }
    let clave := _normaliza p.nombre
    match AList.lookup clave inv1.nombre_idx with
    | none => inv1
    | some s =>
      let s1 := s.erase pid
      if s1 = ∅ then { inv1 with nombre_idx := inv1.nombre_idx.erase clave }
      else { inv1 with nombre_idx := inv1.nombre_idx.insert clave s1 }

/-- Embedding of `Inventario._reindexar_nombre`. -/
def _reindexar_nombre (inv : Inventario) (p : Producto) (nombre_anterior : Cadena) :
    Inventario :=
  match p.id with
  | none => inv
  | some pid =>
    let clave_ant := _normaliza nombre_anterior
    let inv1 :=
      match AList.lookup clave_ant inv.nombre_idx with
      | none => inv
      | some s =>
        let s1 := s.erase pid
        if s1 = ∅ then { inv with nombre_idx := inv.nombre_idx.erase clave_ant }
        else { inv with nombre_idx := inv.nombre_idx.insert clave_ant s1 }
    _indexar inv1 p

/-- The `Producto` built from a table row inside `_cargar_desde_db`. -/
def filaProducto (e : Sigma (fun _ : Nat => Fila)) : Producto :=
  ⟨some e.1, e.2.1, e.2.2.1, e.2.2.2⟩

/-- Embedding of `Inventario._cargar_desde_db`: clear both collections and index every row
of the table. -/
def _cargar_desde_db (inv : Inventario) : Inventario :=
  let inv0 := { inv with productos_por_id := ∅, nombre_idx := ∅ }
  inv0.store.entries.foldl (fun acc e => _indexar acc (filaProducto e)) inv0

/-- Embedding of `Inventario.__init__` applied to an existing database file holding `store`
whose AUTOINCREMENT counter stands at `nextId`. -/
def inventarioInicial (store : Tabla) (nextId : Nat) : Inventario :=
  _cargar_desde_db { store := store, nextId := nextId, productos_por_id := ∅, nombre_idx := ∅ }

/-- Effect of `UPDATE productos SET cantidad = ? WHERE id = ?`. -/
def sqlUpdateCantidad (st : Tabla) (i : Nat) (c : Int) : Tabla :=
  match AList.lookup i st with
  | none => st
  | some fila => st.insert i (fila.1, c, fila.2.2)

/-- Effect of `UPDATE productos SET precio = ? WHERE id = ?`. -/
def sqlUpdatePrecio (st : Tabla) (i : Nat) (pr : Rat) : Tabla :=
  match AList.lookup i st with
  | none => st
  | some fila => st.insert i (fila.1, fila.2.1, pr)

/-- Effect of `UPDATE productos SET nombre = ? WHERE id = ?`. -/
def sqlUpdateNombre (st : Tabla) (i : Nat) (n : Cadena) : Tabla :=
  match AList.lookup i st with
  | none => st
  | some fila => st.insert i (n, fila.2.1, fila.2.2)

/-- Embedding of `Inventario.anadir_producto`.  `ValueError` is `Except.error`; on success
the `INSERT` stores the stripped name and the fresh AUTOINCREMENT id. -/
def anadir_producto (inv : Inventario) (nombre : Cadena) (cantidad : Int)
    (precio : Rat) : Except String (Inventario × Producto) :=
  if cantidad < 0 ∨ precio < 0 then
    Except.error "Cantidad y precio deben ser >= 0."
  else
    let nuevo_id := inv.nextId
    let inv1 := { inv with
      store := inv.store.insert nuevo_id (strip nombre, cantidad, precio),
      nextId := inv.nextId + 1 }
    let p : Producto := ⟨some nuevo_id, strip nombre, cantidad, precio⟩
    Except.ok (_indexar inv1 p, p)

/-- Embedding of `Inventario.eliminar_producto`. -/
def eliminar_producto (inv : Inventario) (prod_id : Nat) : Inventario × Bool :=
  match AList.lookup prod_id inv.productos_por_id with
  | none => (inv, false)
  | some p =>
    let inv1 := { inv with store := inv.store.erase prod_id }
    (_desindexar inv1 p, true)

/-- Embedding of `Inventario.actualizar_cantidad`.  The in-place `p.set_cantidad` mutation
is modelled by replacing the record stored under `prod_id`. -/
def actualizar_cantidad (inv : Inventario) (prod_id : Nat) (nueva_cantidad : Int) :
    Except String (Inventario × Bool) :=
  if nueva_cantidad < 0 then Except.error "La cantidad debe ser >= 0."
  else
    match AList.lookup prod_id inv.productos_por_id with
    | none => Except.ok (inv, false)
    | some p =>
      let inv1 := { inv with store := sqlUpdateCantidad inv.store prod_id nueva_cantidad }
      let p1 := { p with cantidad := nueva_cantidad }
      Except.ok ({ inv1 with productos_por_id := inv1.productos_por_id.insert prod_id p1 },
        true)

/-- Embedding of `Inventario.actualizar_precio`. -/
def actualizar_precio (inv : Inventario) (prod_id : Nat) (nuevo_precio : Rat) :
    Except String (Inventario × Bool) :=
  if nuevo_precio < 0 then Except.error "El precio debe ser >= 0."
  else
    match AList.lookup prod_id inv.productos_por_id with
    | none => Except.ok (inv, false)
    | some p =>
      let inv1 := { inv with store := sqlUpdatePrecio inv.store prod_id nuevo_precio }
      let p1 := { p with precio := nuevo_precio }
      Except.ok ({ inv1 with productos_por_id := inv1.productos_por_id.insert prod_id p1 },
        true)

/-- Embedding of `Inventario.actualizar_nombre`.  The in-place `p.nombre = ...` mutation is
modelled by replacing the record under `prod_id` before reindexing. -/
def actualizar_nombre (inv : Inventario) (prod_id : Nat) (nuevo_nombre : Cadena) :
    Inventario × Bool :=
  match AList.lookup prod_id inv.productos_por_id with
  | none => (inv, false)
  | some p =>
    let nombre_anterior := p.nombre
    let inv1 := { inv with store := sqlUpdateNombre inv.store prod_id (strip nuevo_nombre) }
    let p1 := { p with nombre := strip nuevo_nombre }
    let inv2 := { inv1 with productos_por_id := inv1.productos_por_id.insert prod_id p1 }
    (_reindexar_nombre inv2 p1 nombre_anterior, true)

/-- Embedding of `Inventario.obtener_por_id`. -/
def obtener_por_id (inv : Inventario) (prod_id : Nat) : Option Producto :=
  AList.lookup prod_id inv.productos_por_id

/-- Embedding of `Inventario.buscar_por_nombre`: exact-match tier via the name index, then
the substring fallback only when the first tier produced nothing.  (In the
Python source the exact tier reads `self._productos_por_id[prod_id]`, which on
a consistent state always succeeds; the `filterMap` realises exactly those
successful lookups.) -/
def buscar_por_nombre (inv : Inventario) (consulta : Cadena) : List Producto :=
  let q := _normaliza consulta
  let encontrados :=
    match AList.lookup q inv.nombre_idx with
    | none => []
    | some s => (s.sort (· ≤ ·)).filterMap (fun i => AList.lookup i inv.productos_por_id)
  if encontrados = [] then
    (inv.productos_por_id.entries.map Sigma.snd).filter
      (fun p => esSubcadena q (_normaliza p.nombre))
  else encontrados

/-- Embedding of `Inventario.listar_todos`: sort the cached products by `p.id or 0`. -/
def listar_todos (inv : Inventario) : List Producto :=
  (inv.productos_por_id.entries.map Sigma.snd).mergeSort
    (fun p q => decide (p.id.getD 0 ≤ q.id.getD 0))

/-- One façade call, with the arguments the console shell would pass. -/
inductive Op where
  | anadir (nombre : Cadena) (cantidad : Int) (precio : Rat)
  | eliminar (prod_id : Nat)
  | actCantidad (prod_id : Nat) (cantidad : Int)
  | actPrecio (prod_id : Nat) (precio : Rat)
  | actNombre (prod_id : Nat) (nombre : Cadena)

/-- Run one façade call; a raised `ValueError` propagates to the shell, which
catches it and leaves the `Inventario` object as it was. -/
def applyOp (inv : Inventario) : Op → Inventario
  | Op.anadir n c pr =>
    match anadir_producto inv n c pr with
    | Except.ok r => r.1
    | Except.error _ => inv
  | Op.eliminar i => (eliminar_producto inv i).1
  | Op.actCantidad i c =>
    match actualizar_cantidad inv i c with
    | Except.ok r => r.1
    | Except.error _ => inv
  | Op.actPrecio i pr =>
    match actualizar_precio inv i pr with
    | Except.ok r => r.1
    | Except.error _ => inv
  | Op.actNombre i n => (actualizar_nombre inv i n).1

/-- States reachable from a freshly rebuilt layer: construction over any
database whose ids are all below the AUTOINCREMENT counter, followed by any
sequence of façade calls. -/
inductive Reachable : Inventario → Prop where
  | rebuilt (store : Tabla) (nextId : Nat)
      (h : ∀ i ∈ store.keys, i < nextId) :
      Reachable (inventarioInicial store nextId)
  | step (inv : Inventario) (op : Op) :
      Reachable inv → Reachable (applyOp inv op)

/-! ### Concrete states used to exercise the theorems -/

/-- A fresh inventory over an empty database. -/
def invEjemplo0 : Inventario := inventarioInicial ∅ 1

/-- One product "Pen" (id 1). -/
def invEjemplo1 : Inventario := applyOp invEjemplo0 (Op.anadir "Pen".toList 1 1)

/-- Products "Pen" (id 1) and "Pencil" (id 2). -/
def invEjemplo2 : Inventario := applyOp invEjemplo1 (Op.anadir "Pencil".toList 2 2)

/-- The `_nombre_idx` map never holds an empty set of ids. -/
def sinVacios (inv : Inventario) : Prop :=
  ∀ k s, AList.lookup k inv.nombre_idx = some s → s ≠ ∅

/-! ### The consistency invariant -/

/-- Well-formedness of an `Inventario` state: cached ids stay below the
AUTOINCREMENT counter, the cache mirrors the table row for row, every cached
product carries its own key as `id`, and the name index is exactly the inverse
image of `_normaliza` over the cache, never holding an empty set. -/
structure WF (inv : Inventario) : Prop where
  idsBound : ∀ i, inv.nextId ≤ i → AList.lookup i inv.productos_por_id = none
  idCoherent : ∀ i p, AList.lookup i inv.productos_por_id = some p → p.id = some i
  matchesStore : ∀ i,
    (AList.lookup i inv.productos_por_id).map rowOf = AList.lookup i inv.store
  idxNonempty : ∀ k s, AList.lookup k inv.nombre_idx = some s → s ≠ ∅
  idxSound : ∀ k s i, AList.lookup k inv.nombre_idx = some s → i ∈ s →
    ∃ p, AList.lookup i inv.productos_por_id = some p ∧ _normaliza p.nombre = k
  idxComplete : ∀ i p, AList.lookup i inv.productos_por_id = some p →
    ∃ s, AList.lookup (_normaliza p.nombre) inv.nombre_idx = some s ∧ i ∈ s

/-! ### Lookup characterizations of the collection updates -/

lemma lookup_insert_const {α γ : Type} [DecidableEq α] (s : AList (fun _ : α => γ))
    (a j : α) (b : γ) :
    AList.lookup j (s.insert a b) = if j = a then some b else AList.lookup j s := by
  by_cases h : j = a
  · subst h; rw [if_pos rfl]; exact AList.lookup_insert s
  · rw [if_neg h]; exact AList.lookup_insert_ne h

lemma lookup_erase_const {α γ : Type} [DecidableEq α] (s : AList (fun _ : α => γ))
    (a j : α) :
    AList.lookup j (s.erase a) = if j = a then none else AList.lookup j s := by
  by_cases h : j = a
  · subst h; rw [if_pos rfl]; exact AList.lookup_erase j s
  · rw [if_neg h]; exact AList.lookup_erase_ne h

lemma indexar_store (inv : Inventario) (p : Producto) :
    (_indexar inv p).store = inv.store := by
  unfold _indexar; split <;> rfl

lemma indexar_nextId (inv : Inventario) (p : Producto) :
    (_indexar inv p).nextId = inv.nextId := by
  unfold _indexar; split <;> rfl

lemma indexar_byId (inv : Inventario) (p : Producto) (pid : Nat) (hid : p.id = some pid)
    (j : Nat) :
    AList.lookup j (_indexar inv p).productos_por_id =
      if j = pid then some p else AList.lookup j inv.productos_por_id := by
  unfold _indexar
  rw [hid]
  exact lookup_insert_const _ _ _ _

lemma indexar_idx (inv : Inventario) (p : Producto) (pid : Nat) (hid : p.id = some pid)
    (k : Cadena) :
    AList.lookup k (_indexar inv p).nombre_idx =
      if k = _normaliza p.nombre then
        some (insert pid ((AList.lookup (_normaliza p.nombre) inv.nombre_idx).getD ∅))
      else AList.lookup k inv.nombre_idx := by
  unfold _indexar
  rw [hid]
  exact lookup_insert_const _ _ _ _

lemma desindexar_store (inv : Inventario) (p : Producto) :
    (_desindexar inv p).store = inv.store := by
  unfold _desindexar
  split
  · rfl
  · dsimp only
    split
    · rfl
    · split <;> rfl

lemma desindexar_nextId (inv : Inventario) (p : Producto) :
    (_desindexar inv p).nextId = inv.nextId := by
  unfold _desindexar
  split
  · rfl
  · dsimp only
    split
    · rfl
    · split <;> rfl

lemma desindexar_byId (inv : Inventario) (p : Producto) (pid : Nat)
    (hid : p.id = some pid) (j : Nat) :
    AList.lookup j (_desindexar inv p).productos_por_id =
      if j = pid then none else AList.lookup j inv.productos_por_id := by
  simp only [_desindexar, hid]
  split
  · exact lookup_erase_const _ _ _
  · split <;> exact lookup_erase_const _ _ _

lemma desindexar_idx (inv : Inventario) (p : Producto) (pid : Nat)
    (hid : p.id = some pid) (k : Cadena) :
    AList.lookup k (_desindexar inv p).nombre_idx =
      if k = _normaliza p.nombre then
        match AList.lookup (_normaliza p.nombre) inv.nombre_idx with
        | none => none
        | some s => if s.erase pid = ∅ then none else some (s.erase pid)
      else AList.lookup k inv.nombre_idx := by
  simp only [_desindexar, hid]
  split
  · next heq =>
    by_cases hk : k = _normaliza p.nombre
    · subst hk; simp [heq]
    · simp [hk]
  · next s heq =>
    by_cases hk : k = _normaliza p.nombre
    · subst hk
      by_cases hemp : s.erase pid = ∅
      · simp [heq, hemp, lookup_erase_const]
      · simp [heq, hemp, lookup_insert_const]
    · by_cases hemp : s.erase pid = ∅
      · simp [heq, hemp, lookup_erase_const, hk]
      · simp [heq, hemp, lookup_insert_const, hk]

/-! ### Preservation of the invariant -/

lemma indexar_wf (inv : Inventario) (p : Producto) (pid : Nat)
    (hid : p.id = some pid)
    (hbound : pid < inv.nextId)
    (hstore : AList.lookup pid inv.store = some (rowOf p))
    (hno : ∀ k s, AList.lookup k inv.nombre_idx = some s → pid ∉ s)
    (hidsB : ∀ i, inv.nextId ≤ i → AList.lookup i inv.productos_por_id = none)
    (hcoh : ∀ i q, i ≠ pid → AList.lookup i inv.productos_por_id = some q → q.id = some i)
    (hmatch : ∀ i, i ≠ pid →
      (AList.lookup i inv.productos_por_id).map rowOf = AList.lookup i inv.store)
    (hne : ∀ k s, AList.lookup k inv.nombre_idx = some s → s ≠ ∅)
    (hsound : ∀ k s i, AList.lookup k inv.nombre_idx = some s → i ∈ s → i ≠ pid →
      ∃ q, AList.lookup i inv.productos_por_id = some q ∧ _normaliza q.nombre = k)
    (hcomp : ∀ i q, i ≠ pid → AList.lookup i inv.productos_por_id = some q →
      ∃ s, AList.lookup (_normaliza q.nombre) inv.nombre_idx = some s ∧ i ∈ s) :
    WF (_indexar inv p) := by
  refine ⟨?_, ?_, ?_, ?_, ?_, ?_⟩
  · intro i hi
    rw [indexar_nextId] at hi
    rw [indexar_byId _ _ _ hid]
    have hip : i ≠ pid := by omega
    rw [if_neg hip]
    exact hidsB i hi
  · intro i q h
    rw [indexar_byId _ _ _ hid] at h
    by_cases hip : i = pid
    · subst hip
      rw [if_pos rfl] at h
      cases h
      exact hid
    · rw [if_neg hip] at h
      exact hcoh i q hip h
  · intro i
    rw [indexar_byId _ _ _ hid, indexar_store]
    by_cases hip : i = pid
    · subst hip
      rw [if_pos rfl, hstore]
      rfl
    · rw [if_neg hip]
      exact hmatch i hip
  · intro k s h
    rw [indexar_idx _ _ _ hid] at h
    by_cases hk : k = _normaliza p.nombre
    · rw [if_pos hk] at h
      cases h
      exact Finset.insert_ne_empty _ _
    · rw [if_neg hk] at h
      exact hne k s h
  · intro k s i hks hi
    rw [indexar_idx _ _ _ hid] at hks
    by_cases hk : k = _normaliza p.nombre
    · rw [if_pos hk] at hks
      cases hks
      rcases Finset.mem_insert.mp hi with hip | hmem
      · subst hip
        refine ⟨p, ?_, hk.symm⟩
        rw [indexar_byId _ _ _ hid, if_pos rfl]
      · cases hl : AList.lookup (_normaliza p.nombre) inv.nombre_idx with
        | none => rw [hl] at hmem; simp at hmem
        | some t =>
          rw [hl] at hmem
          simp only [Option.getD_some] at hmem
          have hip : i ≠ pid := fun h => (hno _ _ hl) (h ▸ hmem)
          rcases hsound _ t i hl hmem hip with ⟨q, hq, hql⟩
          refine ⟨q, ?_, hk ▸ hql⟩
          rw [indexar_byId _ _ _ hid, if_neg hip]
          exact hq
    · rw [if_neg hk] at hks
      have hip : i ≠ pid := fun h => (hno _ _ hks) (h ▸ hi)
      rcases hsound k s i hks hi hip with ⟨q, hq, hql⟩
      refine ⟨q, ?_, hql⟩
      rw [indexar_byId _ _ _ hid, if_neg hip]
      exact hq
  · intro i q h
    rw [indexar_byId _ _ _ hid] at h
    have hkey : AList.lookup (_normaliza p.nombre) (_indexar inv p).nombre_idx =
        some (insert pid ((AList.lookup (_normaliza p.nombre) inv.nombre_idx).getD ∅)) := by
      rw [indexar_idx _ _ _ hid, if_pos rfl]
    by_cases hip : i = pid
    · rw [if_pos hip] at h
      cases h
      refine ⟨_, hkey, ?_⟩
      rw [hip]
      exact Finset.mem_insert_self _ _
    · rw [if_neg hip] at h
      rcases hcomp i q hip h with ⟨s, hs, his⟩
      by_cases hk : _normaliza q.nombre = _normaliza p.nombre
      · rw [hk] at hs
        refine ⟨insert pid ((AList.lookup (_normaliza p.nombre) inv.nombre_idx).getD ∅),
          ?_, ?_⟩
        · rw [hk]
          exact hkey
        · rw [hs]
          simp only [Option.getD_some]
          exact Finset.mem_insert_of_mem his
      · refine ⟨s, ?_, his⟩
        rw [indexar_idx _ _ _ hid, if_neg hk]
        exact hs

lemma desindexar_idx_none (inv : Inventario) (p : Producto) (pid : Nat)
    (hid : p.id = some pid)
    (hll : AList.lookup (_normaliza p.nombre) inv.nombre_idx = none) (k : Cadena) :
    AList.lookup k (_desindexar inv p).nombre_idx = AList.lookup k inv.nombre_idx := by
  rw [desindexar_idx inv p pid hid k]
  by_cases hk : k = _normaliza p.nombre
  · rw [if_pos hk, hll, hk, hll]
  · rw [if_neg hk]

lemma desindexar_idx_some (inv : Inventario) (p : Producto) (pid : Nat)
    (hid : p.id = some pid) (t : Finset Nat)
    (hll : AList.lookup (_normaliza p.nombre) inv.nombre_idx = some t) (k : Cadena) :
    AList.lookup k (_desindexar inv p).nombre_idx =
      if k = _normaliza p.nombre then
        (if t.erase pid = ∅ then none else some (t.erase pid))
      else AList.lookup k inv.nombre_idx := by
  rw [desindexar_idx inv p pid hid k, hll]

lemma eliminar_wf (inv : Inventario) (h : WF inv) (i : Nat) :
    WF (eliminar_producto inv i).1 := by
  cases hl : AList.lookup i inv.productos_por_id with
  | none => simp only [eliminar_producto, hl]; exact h
  | some p =>
    have hid : p.id = some i := h.idCoherent i p hl
    rcases h.idxComplete i p hl with ⟨t, ht, hit⟩
    simp only [eliminar_producto, hl]
    set inv1 : Inventario := { inv with store := inv.store.erase i } with hinv1
    have hbyId : ∀ j, AList.lookup j (_desindexar inv1 p).productos_por_id =
        if j = i then none else AList.lookup j inv.productos_por_id := by
      intro j
      rw [desindexar_byId inv1 p i hid j]
    have hidx : ∀ k, AList.lookup k (_desindexar inv1 p).nombre_idx =
        if k = _normaliza p.nombre then
          (if t.erase i = ∅ then none else some (t.erase i))
        else AList.lookup k inv.nombre_idx := by
      intro k
      rw [desindexar_idx_some inv1 p i hid t ht k]
    have hst : (_desindexar inv1 p).store = inv.store.erase i := desindexar_store inv1 p
    have hnx : (_desindexar inv1 p).nextId = inv.nextId := desindexar_nextId inv1 p
    refine ⟨?_, ?_, ?_, ?_, ?_, ?_⟩
    · intro j hj
      rw [hnx] at hj
      rw [hbyId j]
      by_cases hji : j = i
      · rw [if_pos hji]
      · rw [if_neg hji]
        exact h.idsBound j hj
    · intro j q hq
      rw [hbyId j] at hq
      by_cases hji : j = i
      · rw [if_pos hji] at hq; cases hq
      · rw [if_neg hji] at hq
        exact h.idCoherent j q hq
    · intro j
      rw [hbyId j, hst, lookup_erase_const]
      by_cases hji : j = i
      · rw [if_pos hji, if_pos hji]
        rfl
      · rw [if_neg hji, if_neg hji]
        exact h.matchesStore j
    · intro k s hk
      rw [hidx k] at hk
      by_cases hkk : k = _normaliza p.nombre
      · rw [if_pos hkk] at hk
        by_cases hemp : t.erase i = ∅
        · rw [if_pos hemp] at hk; cases hk
        · rw [if_neg hemp] at hk
          cases hk
          exact hemp
      · rw [if_neg hkk] at hk
        exact h.idxNonempty k s hk
    · intro k s j hk hj
      rw [hidx k] at hk
      by_cases hkk : k = _normaliza p.nombre
      · rw [if_pos hkk] at hk
        by_cases hemp : t.erase i = ∅
        · rw [if_pos hemp] at hk; cases hk
        · rw [if_neg hemp] at hk
          cases hk
          have hjt : j ∈ t := Finset.mem_of_mem_erase hj
          have hji : j ≠ i := Finset.ne_of_mem_erase hj
          rcases h.idxSound _ t j ht hjt with ⟨q, hq, hqk⟩
          refine ⟨q, ?_, hkk ▸ hqk⟩
          rw [hbyId j, if_neg hji]
          exact hq
      · rw [if_neg hkk] at hk
        rcases h.idxSound k s j hk hj with ⟨q, hq, hqk⟩
        have hji : j ≠ i := by
          intro hji
          rw [hji, hl] at hq
          cases hq
          exact hkk hqk.symm
        refine ⟨q, ?_, hqk⟩
        rw [hbyId j, if_neg hji]
        exact hq
    · intro j q hq
      rw [hbyId j] at hq
      by_cases hji : j = i
      · rw [if_pos hji] at hq; cases hq
      · rw [if_neg hji] at hq
        rcases h.idxComplete j q hq with ⟨s, hs, hjs⟩
        by_cases hkk : _normaliza q.nombre = _normaliza p.nombre
        · rw [hkk] at hs
          have hts : t = s := Option.some.inj (ht.symm.trans hs)
          have hjt : j ∈ t.erase i :=
            Finset.mem_erase_of_ne_of_mem hji (by rw [hts]; exact hjs)
          refine ⟨t.erase i, ?_, hjt⟩
          rw [hidx _, if_pos hkk, if_neg (Finset.ne_empty_of_mem hjt)]
        · refine ⟨s, ?_, hjs⟩
          rw [hidx _, if_neg hkk]
          exact hs

lemma anadir_wf (inv : Inventario) (h : WF inv) (n : Cadena) (c : Int) (pr : Rat) :
    WF (applyOp inv (Op.anadir n c pr)) := by
  by_cases hneg : c < 0 ∨ pr < 0
  · simp only [applyOp, anadir_producto, if_pos hneg]
    exact h
  · simp only [applyOp, anadir_producto, if_neg hneg]
    refine indexar_wf _ _ inv.nextId rfl ?_ ?_ ?_ ?_ ?_ ?_ ?_ ?_ ?_
    · exact Nat.lt_succ_self _
    · exact AList.lookup_insert inv.store
    · intro k s hk hmem
      rcases h.idxSound k s inv.nextId hk hmem with ⟨q, hq, _⟩
      rw [h.idsBound inv.nextId (Nat.le_refl _)] at hq
      cases hq
    · intro i hi
      have hi2 : inv.nextId + 1 ≤ i := hi
      exact h.idsBound i (Nat.le_of_succ_le hi2)
    · intro i q hiq hq
      exact h.idCoherent i q hq
    · intro i hiq
      exact (h.matchesStore i).trans (AList.lookup_insert_ne hiq).symm
    · exact h.idxNonempty
    · intro k s i hk hmem hiq
      exact h.idxSound k s i hk hmem
    · intro i q hiq hq
      exact h.idxComplete i q hq

lemma actCantidad_wf (inv : Inventario) (h : WF inv) (i : Nat) (c : Int) :
    WF (applyOp inv (Op.actCantidad i c)) := by
  by_cases hneg : c < 0
  · simp only [applyOp, actualizar_cantidad, if_pos hneg]
    exact h
  · cases hl : AList.lookup i inv.productos_por_id with
    | none =>
      simp only [applyOp, actualizar_cantidad, if_neg hneg, hl]
      exact h
    | some p =>
      have hib : i < inv.nextId := by
        by_contra hc
        rw [h.idsBound i (Nat.le_of_not_lt hc)] at hl
        cases hl
      have hmi := h.matchesStore i
      rw [hl] at hmi
      cases hsl : AList.lookup i inv.store with
      | none => rw [hsl] at hmi; cases hmi
      | some fila =>
        have hfila : fila = rowOf p := by
          rw [hsl] at hmi
          exact (Option.some.inj hmi).symm
        subst hfila
        simp only [applyOp, actualizar_cantidad, if_neg hneg, hl]
        have hstl : ∀ j, AList.lookup j (sqlUpdateCantidad inv.store i c) =
            if j = i then some (p.nombre, c, p.precio) else AList.lookup j inv.store := by
          intro j
          simp only [sqlUpdateCantidad, hsl]
          rw [lookup_insert_const]
          rfl
        refine ⟨?_, ?_, ?_, ?_, ?_, ?_⟩
        · intro j hj
          have hj2 : inv.nextId ≤ j := hj
          rw [lookup_insert_const, if_neg (by omega : j ≠ i)]
          exact h.idsBound j hj2
        · intro j q hq
          rw [lookup_insert_const] at hq
          by_cases hji : j = i
          · rw [if_pos hji] at hq
            cases hq
            rw [hji]
            exact h.idCoherent i p hl
          · rw [if_neg hji] at hq
            exact h.idCoherent j q hq
        · intro j
          rw [lookup_insert_const, hstl j]
          by_cases hji : j = i
          · rw [if_pos hji, if_pos hji]
            rfl
          · rw [if_neg hji, if_neg hji]
            exact h.matchesStore j
        · exact h.idxNonempty
        · intro k s j hk hj
          rcases h.idxSound k s j hk hj with ⟨q, hq, hqk⟩
          rw [lookup_insert_const]
          by_cases hji : j = i
          · rw [hji, hl] at hq
            cases hq
            refine ⟨_, if_pos hji, ?_⟩
            exact hqk
          · refine ⟨q, ?_, hqk⟩
            rw [if_neg hji]
            exact hq
        · intro j q hq
          rw [lookup_insert_const] at hq
          by_cases hji : j = i
          · rw [if_pos hji] at hq
            cases hq
            rcases h.idxComplete i p hl with ⟨s, hs, his⟩
            refine ⟨s, hs, ?_⟩
            rw [hji]
            exact his
          · rw [if_neg hji] at hq
            exact h.idxComplete j q hq

lemma actPrecio_wf (inv : Inventario) (h : WF inv) (i : Nat) (pr : Rat) :
    WF (applyOp inv (Op.actPrecio i pr)) := by
  by_cases hneg : pr < 0
  · simp only [applyOp, actualizar_precio, if_pos hneg]
    exact h
  · cases hl : AList.lookup i inv.productos_por_id with
    | none =>
      simp only [applyOp, actualizar_precio, if_neg hneg, hl]
      exact h
    | some p =>
      have hib : i < inv.nextId := by
        by_contra hc
        rw [h.idsBound i (Nat.le_of_not_lt hc)] at hl
        cases hl
      have hmi := h.matchesStore i
      rw [hl] at hmi
      cases hsl : AList.lookup i inv.store with
      | none => rw [hsl] at hmi; cases hmi
      | some fila =>
        have hfila : fila = rowOf p := by
          rw [hsl] at hmi
          exact (Option.some.inj hmi).symm
        subst hfila
        simp only [applyOp, actualizar_precio, if_neg hneg, hl]
        have hstl : ∀ j, AList.lookup j (sqlUpdatePrecio inv.store i pr) =
            if j = i then some (p.nombre, p.cantidad, pr) else AList.lookup j inv.store := by
          intro j
          simp only [sqlUpdatePrecio, hsl]
          rw [lookup_insert_const]
          rfl
        refine ⟨?_, ?_, ?_, ?_, ?_, ?_⟩
        · intro j hj
          have hj2 : inv.nextId ≤ j := hj
          rw [lookup_insert_const, if_neg (by omega : j ≠ i)]
          exact h.idsBound j hj2
        · intro j q hq
          rw [lookup_insert_const] at hq
          by_cases hji : j = i
          · rw [if_pos hji] at hq
            cases hq
            rw [hji]
            exact h.idCoherent i p hl
          · rw [if_neg hji] at hq
            exact h.idCoherent j q hq
        · intro j
          rw [lookup_insert_const, hstl j]
          by_cases hji : j = i
          · rw [if_pos hji, if_pos hji]
            rfl
          · rw [if_neg hji, if_neg hji]
            exact h.matchesStore j
        · exact h.idxNonempty
        · intro k s j hk hj
          rcases h.idxSound k s j hk hj with ⟨q, hq, hqk⟩
          rw [lookup_insert_const]
          by_cases hji : j = i
          · rw [hji, hl] at hq
            cases hq
            refine ⟨_, if_pos hji, ?_⟩
            exact hqk
          · refine ⟨q, ?_, hqk⟩
            rw [if_neg hji]
            exact hq
        · intro j q hq
          rw [lookup_insert_const] at hq
          by_cases hji : j = i
          · rw [if_pos hji] at hq
            cases hq
            rcases h.idxComplete i p hl with ⟨s, hs, his⟩
            refine ⟨s, hs, ?_⟩
            rw [hji]
            exact his
          · rw [if_neg hji] at hq
            exact h.idxComplete j q hq

lemma actNombre_wf (inv : Inventario) (h : WF inv) (i : Nat) (nn : Cadena) :
    WF (applyOp inv (Op.actNombre i nn)) := by
  cases hl : AList.lookup i inv.productos_por_id with
  | none =>
    simp only [applyOp, actualizar_nombre, hl]
    exact h
  | some p =>
    have hid : p.id = some i := h.idCoherent i p hl
    have hib : i < inv.nextId := by
      by_contra hc
      rw [h.idsBound i (Nat.le_of_not_lt hc)] at hl
      cases hl
    rcases h.idxComplete i p hl with ⟨t, ht, hit⟩
    have hmi := h.matchesStore i
    rw [hl] at hmi
    cases hsl : AList.lookup i inv.store with
    | none => rw [hsl] at hmi; cases hmi
    | some fila =>
      have hfila : fila = rowOf p := by
        rw [hsl] at hmi
        exact (Option.some.inj hmi).symm
      subst hfila
      have hstl : ∀ j, AList.lookup j (sqlUpdateNombre inv.store i (strip nn)) =
          if j = i then some (strip nn, p.cantidad, p.precio)
          else AList.lookup j inv.store := by
        intro j
        simp only [sqlUpdateNombre, hsl]
        rw [lookup_insert_const]
        rfl
      have hsoundNe : ∀ k s j, AList.lookup k inv.nombre_idx = some s → j ∈ s →
          k ≠ _normaliza p.nombre → j ≠ i := by
        intro k s j hk hj hkk hji
        rcases h.idxSound k s j hk hj with ⟨q, hq, hqk⟩
        rw [hji, hl] at hq
        cases hq
        exact hkk hqk.symm
      simp only [applyOp, actualizar_nombre, hl, _reindexar_nombre, hid, ht]
      by_cases hemp : t.erase i = ∅
      · rw [if_pos hemp]
        refine indexar_wf _ _ i rfl ?_ ?_ ?_ ?_ ?_ ?_ ?_ ?_ ?_
        · exact hib
        · rw [hstl i, if_pos rfl]
          rfl
        · intro k s hk hmem
          rw [lookup_erase_const] at hk
          by_cases hkk : k = _normaliza p.nombre
          · rw [if_pos hkk] at hk; cases hk
          · rw [if_neg hkk] at hk
            exact hsoundNe k s i hk hmem hkk rfl
        · intro j hj
          have hj2 : inv.nextId ≤ j := hj
          rw [lookup_insert_const, if_neg (by omega : j ≠ i)]
          exact h.idsBound j hj2
        · intro j q hji hq
          rw [lookup_insert_const, if_neg hji] at hq
          exact h.idCoherent j q hq
        · intro j hji
          rw [lookup_insert_const, if_neg hji, hstl j, if_neg hji]
          exact h.matchesStore j
        · intro k s hk
          rw [lookup_erase_const] at hk
          by_cases hkk : k = _normaliza p.nombre
          · rw [if_pos hkk] at hk; cases hk
          · rw [if_neg hkk] at hk
            exact h.idxNonempty k s hk
        · intro k s j hk hmem hji
          rw [lookup_erase_const] at hk
          by_cases hkk : k = _normaliza p.nombre
          · rw [if_pos hkk] at hk; cases hk
          · rw [if_neg hkk] at hk
            rcases h.idxSound k s j hk hmem with ⟨q, hq, hqk⟩
            refine ⟨q, ?_, hqk⟩
            rw [lookup_insert_const, if_neg hji]
            exact hq
        · intro j q hji hq
          rw [lookup_insert_const, if_neg hji] at hq
          rcases h.idxComplete j q hq with ⟨s, hs, hjs⟩
          by_cases hkk : _normaliza q.nombre = _normaliza p.nombre
          · rw [hkk] at hs
            have hts : t = s := Option.some.inj (ht.symm.trans hs)
            have : j ∈ t.erase i := Finset.mem_erase_of_ne_of_mem hji (by rw [hts]; exact hjs)
            rw [hemp] at this
            cases Finset.not_mem_empty j this
          · refine ⟨s, ?_, hjs⟩
            rw [lookup_erase_const, if_neg hkk]
            exact hs
      · rw [if_neg hemp]
        refine indexar_wf _ _ i rfl ?_ ?_ ?_ ?_ ?_ ?_ ?_ ?_ ?_
        · exact hib
        · rw [hstl i, if_pos rfl]
          rfl
        · intro k s hk hmem
          rw [lookup_insert_const] at hk
          by_cases hkk : k = _normaliza p.nombre
          · rw [if_pos hkk] at hk
            cases hk
            exact absurd rfl (Finset.ne_of_mem_erase hmem)
          · rw [if_neg hkk] at hk
            exact hsoundNe k s i hk hmem hkk rfl
        · intro j hj
          have hj2 : inv.nextId ≤ j := hj
          rw [lookup_insert_const, if_neg (by omega : j ≠ i)]
          exact h.idsBound j hj2
        · intro j q hji hq
          rw [lookup_insert_const, if_neg hji] at hq
          exact h.idCoherent j q hq
        · intro j hji
          rw [lookup_insert_const, if_neg hji, hstl j, if_neg hji]
          exact h.matchesStore j
        · intro k s hk
          rw [lookup_insert_const] at hk
          by_cases hkk : k = _normaliza p.nombre
          · rw [if_pos hkk] at hk
            cases hk
            exact hemp
          · rw [if_neg hkk] at hk
            exact h.idxNonempty k s hk
        · intro k s j hk hmem hji
          rw [lookup_insert_const] at hk
          by_cases hkk : k = _normaliza p.nombre
          · rw [if_pos hkk] at hk
            cases hk
            rcases h.idxSound _ t j ht (Finset.mem_of_mem_erase hmem) with ⟨q, hq, hqk⟩
            refine ⟨q, ?_, hkk ▸ hqk⟩
            rw [lookup_insert_const, if_neg hji]
            exact hq
          · rw [if_neg hkk] at hk
            rcases h.idxSound k s j hk hmem with ⟨q, hq, hqk⟩
            refine ⟨q, ?_, hqk⟩
            rw [lookup_insert_const, if_neg hji]
            exact hq
        · intro j q hji hq
          rw [lookup_insert_const, if_neg hji] at hq
          rcases h.idxComplete j q hq with ⟨s, hs, hjs⟩
          by_cases hkk : _normaliza q.nombre = _normaliza p.nombre
          · rw [hkk] at hs
            have hts : t = s := Option.some.inj (ht.symm.trans hs)
            have hjt : j ∈ t.erase i :=
              Finset.mem_erase_of_ne_of_mem hji (by rw [hts]; exact hjs)
            refine ⟨t.erase i, ?_, hjt⟩
            rw [lookup_insert_const, if_pos hkk]
          · refine ⟨s, ?_, hjs⟩
            rw [lookup_insert_const, if_neg hkk]
            exact hs

lemma fold_indexar_store (pend : List (Sigma (fun _ : Nat => Fila))) :
    ∀ inv : Inventario,
      (pend.foldl (fun acc e => _indexar acc (filaProducto e)) inv).store = inv.store := by
  induction pend with
  | nil => intro inv; rfl
  | cons e pend ih =>
    intro inv
    rw [List.foldl_cons, ih, indexar_store]

lemma fold_indexar_nextId (pend : List (Sigma (fun _ : Nat => Fila))) :
    ∀ inv : Inventario,
      (pend.foldl (fun acc e => _indexar acc (filaProducto e)) inv).nextId = inv.nextId := by
  induction pend with
  | nil => intro inv; rfl
  | cons e pend ih =>
    intro inv
    rw [List.foldl_cons, ih, indexar_nextId]

lemma cargar_fold_wf (n : Nat) (pend : List (Sigma (fun _ : Nat => Fila))) :
    ∀ (inv : Inventario),
      inv.nextId = n →
      pend.NodupKeys →
      (∀ e ∈ pend, e.1 < n) →
      (∀ e ∈ pend, AList.lookup e.1 inv.productos_por_id = none) →
      (∀ e ∈ pend, AList.lookup e.1 inv.store = some e.2) →
      (∀ j, j ∉ pend.keys →
        Option.map rowOf (AList.lookup j inv.productos_por_id) = AList.lookup j inv.store) →
      (∀ j, n ≤ j → AList.lookup j inv.productos_por_id = none) →
      (∀ j q, AList.lookup j inv.productos_por_id = some q → q.id = some j) →
      (∀ k s, AList.lookup k inv.nombre_idx = some s → s ≠ ∅) →
      (∀ k s j, AList.lookup k inv.nombre_idx = some s → j ∈ s →
        ∃ q, AList.lookup j inv.productos_por_id = some q ∧ _normaliza q.nombre = k) →
      (∀ j q, AList.lookup j inv.productos_por_id = some q →
        ∃ s, AList.lookup (_normaliza q.nombre) inv.nombre_idx = some s ∧ j ∈ s) →
      WF (pend.foldl (fun acc e => _indexar acc (filaProducto e)) inv) := by
  induction pend with
  | nil =>
    intro inv hn hnd hlt hnone hst hout hbd hcoh hne hsound hcomp
    exact ⟨fun j hj => hbd j (by rw [← hn]; exact hj), hcoh,
      fun j => hout j (List.not_mem_nil j), hne, hsound, hcomp⟩
  | cons e pend ih =>
    intro inv hn hnd hlt hnone hst hout hbd hcoh hne hsound hcomp
    have hkeys : e.1 ∉ pend.keys ∧ pend.NodupKeys := List.nodupKeys_cons.mp hnd
    have hea : e.1 < n := hlt e (List.mem_cons_self e pend)
    have heid : (filaProducto e).id = some e.1 := rfl
    have hbyId : ∀ j, AList.lookup j (_indexar inv (filaProducto e)).productos_por_id =
        if j = e.1 then some (filaProducto e) else AList.lookup j inv.productos_por_id :=
      fun j => indexar_byId inv (filaProducto e) e.1 heid j
    have hidx : ∀ k, AList.lookup k (_indexar inv (filaProducto e)).nombre_idx =
        if k = _normaliza (filaProducto e).nombre then
          some (insert e.1
            ((AList.lookup (_normaliza (filaProducto e).nombre) inv.nombre_idx).getD ∅))
        else AList.lookup k inv.nombre_idx :=
      fun k => indexar_idx inv (filaProducto e) e.1 heid k
    have henone : AList.lookup e.1 inv.productos_por_id = none :=
      hnone e (List.mem_cons_self e pend)
    rw [List.foldl_cons]
    refine ih (_indexar inv (filaProducto e)) ?_ hkeys.2 ?_ ?_ ?_ ?_ ?_ ?_ ?_ ?_ ?_
    · rw [indexar_nextId]; exact hn
    · intro f hf
      exact hlt f (List.mem_cons_of_mem e hf)
    · intro f hf
      rw [hbyId f.1]
      have hfa : f.1 ≠ e.1 := by
        intro hfa
        exact hkeys.1 (hfa ▸ List.mem_keys_of_mem hf)
      rw [if_neg hfa]
      exact hnone f (List.mem_cons_of_mem e hf)
    · intro f hf
      rw [indexar_store]
      exact hst f (List.mem_cons_of_mem e hf)
    · intro j hj
      rw [hbyId j, indexar_store]
      by_cases hja : j = e.1
      · rw [if_pos hja, hja]
        have := hst e (List.mem_cons_self e pend)
        rw [this]
        rfl
      · rw [if_neg hja]
        refine hout j ?_
        rw [List.keys_cons]
        intro hmem
        rcases List.mem_cons.mp hmem with hc | hc
        · exact hja hc
        · exact hj hc
    · intro j hj
      rw [hbyId j, if_neg (by omega : j ≠ e.1)]
      exact hbd j hj
    · intro j q hq
      rw [hbyId j] at hq
      by_cases hja : j = e.1
      · rw [if_pos hja] at hq
        cases hq
        rw [hja]
        rfl
      · rw [if_neg hja] at hq
        exact hcoh j q hq
    · intro k s hk
      rw [hidx k] at hk
      by_cases hkk : k = _normaliza (filaProducto e).nombre
      · rw [if_pos hkk] at hk
        cases hk
        exact Finset.insert_ne_empty _ _
      · rw [if_neg hkk] at hk
        exact hne k s hk
    · intro k s j hk hj
      rw [hidx k] at hk
      by_cases hkk : k = _normaliza (filaProducto e).nombre
      · rw [if_pos hkk] at hk
        cases hk
        rcases Finset.mem_insert.mp hj with hja | hmem
        · refine ⟨filaProducto e, ?_, hkk.symm⟩
          rw [hbyId j, if_pos hja]
        · cases hll : AList.lookup (_normaliza (filaProducto e).nombre) inv.nombre_idx with
          | none => rw [hll] at hmem; simp at hmem
          | some t =>
            rw [hll] at hmem
            simp only [Option.getD_some] at hmem
            rcases hsound _ t j hll hmem with ⟨q, hq, hqk⟩
            have hja : j ≠ e.1 := by
              intro hja
              rw [hja, henone] at hq
              cases hq
            refine ⟨q, ?_, hkk ▸ hqk⟩
            rw [hbyId j, if_neg hja]
            exact hq
      · rw [if_neg hkk] at hk
        rcases hsound k s j hk hj with ⟨q, hq, hqk⟩
        have hja : j ≠ e.1 := by
          intro hja
          rw [hja, henone] at hq
          cases hq
        refine ⟨q, ?_, hqk⟩
        rw [hbyId j, if_neg hja]
        exact hq
    · intro j q hq
      rw [hbyId j] at hq
      have hkey : AList.lookup (_normaliza (filaProducto e).nombre)
          (_indexar inv (filaProducto e)).nombre_idx =
          some (insert e.1
            ((AList.lookup (_normaliza (filaProducto e).nombre) inv.nombre_idx).getD ∅)) := by
        rw [hidx _, if_pos rfl]
      by_cases hja : j = e.1
      · rw [if_pos hja] at hq
        cases hq
        refine ⟨_, hkey, ?_⟩
        rw [hja]
        exact Finset.mem_insert_self _ _
      · rw [if_neg hja] at hq
        rcases hcomp j q hq with ⟨s, hs, hjs⟩
        by_cases hkk : _normaliza q.nombre = _normaliza (filaProducto e).nombre
        · rw [hkk] at hs
          refine ⟨insert e.1
            ((AList.lookup (_normaliza (filaProducto e).nombre) inv.nombre_idx).getD ∅),
            ?_, ?_⟩
          · rw [hkk]
            exact hkey
          · rw [hs]
            simp only [Option.getD_some]
            exact Finset.mem_insert_of_mem hjs
        · refine ⟨s, ?_, hjs⟩
          rw [hidx _, if_neg hkk]
          exact hs

lemma inicial_wf (store : Tabla) (n : Nat) (h : ∀ i ∈ store.keys, i < n) :
    WF (inventarioInicial store n) := by
  refine cargar_fold_wf n store.entries
    { store := store, nextId := n, productos_por_id := ∅, nombre_idx := ∅ }
    rfl store.nodupKeys ?_ ?_ ?_ ?_ ?_ ?_ ?_ ?_ ?_
  · intro e he
    exact h e.1 (List.mem_keys_of_mem he)
  · intro e _
    exact AList.lookup_empty e.1
  · intro e he
    have : e.2 ∈ AList.lookup e.1 store := by
      refine AList.mem_lookup_iff.mpr ?_
      rw [Sigma.eta]
      exact he
    exact Option.mem_def.mp this
  · intro j hj
    rw [AList.lookup_empty]
    have : AList.lookup j store = none := by
      rw [AList.lookup_eq_none, AList.mem_keys]
      exact hj
    rw [this]
    rfl
  · intro j _
    exact AList.lookup_empty j
  · intro j q hq
    rw [AList.lookup_empty] at hq
    cases hq
  · intro k s hk
    rw [AList.lookup_empty] at hk
    cases hk
  · intro k s j hk _
    rw [AList.lookup_empty] at hk
    cases hk
  · intro j q hq
    rw [AList.lookup_empty] at hq
    cases hq

lemma applyOp_wf (inv : Inventario) (h : WF inv) (op : Op) : WF (applyOp inv op) := by
  cases op with
  | anadir n c pr => exact anadir_wf inv h n c pr
  | eliminar i => exact eliminar_wf inv h i
  | actCantidad i c => exact actCantidad_wf inv h i c
  | actPrecio i pr => exact actPrecio_wf inv h i pr
  | actNombre i nn => exact actNombre_wf inv h i nn

/-- Every state reachable from a freshly rebuilt layer is well-formed. -/
lemma reachable_wf (inv : Inventario) (h : Reachable inv) : WF inv := by
  induction h with
  | rebuilt store n hlt => exact inicial_wf store n hlt
  | step inv op _ ih => exact applyOp_wf inv ih op

/-! ### Helpers about the query façade -/

lemma esSubcadena_nil (s : Cadena) : esSubcadena [] s = true :=
  decide_eq_true ⟨[], s, by simp⟩

lemma mem_values_iff {γ : Type} (m : AList (fun _ : Nat => γ)) (x : γ) :
    x ∈ m.entries.map Sigma.snd ↔ ∃ j, AList.lookup j m = some x := by
  constructor
  · intro hx
    rcases List.mem_map.mp hx with ⟨e, he, hex⟩
    refine ⟨e.1, ?_⟩
    have : e.2 ∈ AList.lookup e.1 m := by
      refine AList.mem_lookup_iff.mpr ?_
      rw [Sigma.eta]
      exact he
    rw [Option.mem_def.mp this, hex]
  · intro hx
    rcases hx with ⟨j, hj⟩
    have : Sigma.mk j x ∈ m.entries := AList.mem_lookup_iff.mp (Option.mem_def.mpr hj)
    exact List.mem_map.mpr ⟨⟨j, x⟩, this, rfl⟩

lemma buscar_exact (inv : Inventario) (consulta : Cadena) (s : Finset Nat)
    (hk : AList.lookup (_normaliza consulta) inv.nombre_idx = some s)
    (hne : s.Nonempty)
    (hres : ∀ i ∈ s, ∃ p, AList.lookup i inv.productos_por_id = some p) :
    ∀ p, p ∈ buscar_por_nombre inv consulta ↔
      ∃ i ∈ s, AList.lookup i inv.productos_por_id = some p := by
  intro p
  have hmem : ∀ q, q ∈ (s.sort (· ≤ ·)).filterMap
      (fun i => AList.lookup i inv.productos_por_id) ↔
      ∃ i ∈ s, AList.lookup i inv.productos_por_id = some q := by
    intro q
    rw [List.mem_filterMap]
    constructor
    · rintro ⟨i, hi, hq⟩
      exact ⟨i, (Finset.mem_sort _).mp hi, hq⟩
    · rintro ⟨i, hi, hq⟩
      exact ⟨i, (Finset.mem_sort _).mpr hi, hq⟩
  have hnonnil : (s.sort (· ≤ ·)).filterMap
      (fun i => AList.lookup i inv.productos_por_id) ≠ [] := by
    rcases hne with ⟨i, hi⟩
    rcases hres i hi with ⟨q, hq⟩
    intro hnil
    have : q ∈ (s.sort (· ≤ ·)).filterMap
        (fun i => AList.lookup i inv.productos_por_id) := (hmem q).mpr ⟨i, hi, hq⟩
    rw [hnil] at this
    cases this
  simp only [buscar_por_nombre, hk, if_neg hnonnil]
  exact hmem p

lemma buscar_fallback (inv : Inventario) (consulta : Cadena)
    (hk : AList.lookup (_normaliza consulta) inv.nombre_idx = none) :
    buscar_por_nombre inv consulta =
      (inv.productos_por_id.entries.map Sigma.snd).filter
        (fun p => esSubcadena (_normaliza consulta) (_normaliza p.nombre)) := by
  simp [buscar_por_nombre, hk]

lemma actNombre_byId (inv : Inventario) (h : WF inv) (i : Nat) (nuevo : Cadena)
    (p : Producto) (hl : AList.lookup i inv.productos_por_id = some p) (j : Nat) :
    AList.lookup j (actualizar_nombre inv i nuevo).1.productos_por_id =
      if j = i then some { p with nombre := strip nuevo }
      else AList.lookup j inv.productos_por_id := by
  have hid : p.id = some i := h.idCoherent i p hl
  rcases h.idxComplete i p hl with ⟨t, ht, hit⟩
  simp only [actualizar_nombre, hl, _reindexar_nombre, hid, ht]
  by_cases hemp : t.erase i = ∅
  · rw [if_pos hemp, indexar_byId _ _ i rfl j]
    by_cases hji : j = i
    · rw [if_pos hji, if_pos hji]
    · rw [if_neg hji, if_neg hji, lookup_insert_const, if_neg hji]
  · rw [if_neg hemp, indexar_byId _ _ i rfl j]
    by_cases hji : j = i
    · rw [if_pos hji, if_pos hji]
    · rw [if_neg hji, if_neg hji, lookup_insert_const, if_neg hji]

lemma indexar_sinVacios (inv : Inventario) (p : Producto) (h : sinVacios inv) :
    sinVacios (_indexar inv p) := by
  cases hp : p.id with
  | none =>
    unfold _indexar
    rw [hp]
    exact h
  | some pid =>
    intro k s hk
    rw [indexar_idx inv p pid hp k] at hk
    by_cases hkk : k = _normaliza p.nombre
    · rw [if_pos hkk] at hk
      cases hk
      exact Finset.insert_ne_empty _ _
    · rw [if_neg hkk] at hk
      exact h k s hk

lemma desindexar_sinVacios (inv : Inventario) (p : Producto) (h : sinVacios inv) :
    sinVacios (_desindexar inv p) := by
  cases hp : p.id with
  | none =>
    unfold _desindexar
    rw [hp]
    exact h
  | some pid =>
    cases hll : AList.lookup (_normaliza p.nombre) inv.nombre_idx with
    | none =>
      intro k s hk
      rw [desindexar_idx_none inv p pid hp hll k] at hk
      exact h k s hk
    | some t =>
      intro k s hk
      rw [desindexar_idx_some inv p pid hp t hll k] at hk
      by_cases hkk : k = _normaliza p.nombre
      · rw [if_pos hkk] at hk
        by_cases hemp : t.erase pid = ∅
        · rw [if_pos hemp] at hk
          cases hk
        · rw [if_neg hemp] at hk
          cases hk
          exact hemp
      · rw [if_neg hkk] at hk
        exact h k s hk

lemma reindexar_sinVacios (inv : Inventario) (p : Producto) (na : Cadena)
    (h : sinVacios inv) : sinVacios (_reindexar_nombre inv p na) := by
  cases hp : p.id with
  | none =>
    unfold _reindexar_nombre
    rw [hp]
    exact h
  | some pid =>
    simp only [_reindexar_nombre, hp]
    refine indexar_sinVacios _ p ?_
    cases hll : AList.lookup (_normaliza na) inv.nombre_idx with
    | none =>
      simp only [hll]
      exact h
    | some t =>
      simp only [hll]
      by_cases hemp : t.erase pid = ∅
      · rw [if_pos hemp]
        intro k s hk
        rw [lookup_erase_const] at hk
        by_cases hkk : k = _normaliza na
        · rw [if_pos hkk] at hk
          cases hk
        · rw [if_neg hkk] at hk
          exact h k s hk
      · rw [if_neg hemp]
        intro k s hk
        rw [lookup_insert_const] at hk
        by_cases hkk : k = _normaliza na
        · rw [if_pos hkk] at hk
          cases hk
          exact hemp
        · rw [if_neg hkk] at hk
          exact h k s hk

lemma reachable_ejemplo0 : Reachable invEjemplo0 :=
  Reachable.rebuilt ∅ 1 (by
    intro i hi
    rw [AList.keys_empty] at hi
    exact absurd hi (List.not_mem_nil i))

lemma reachable_ejemplo1 : Reachable invEjemplo1 :=
  Reachable.step invEjemplo0 (Op.anadir "Pen".toList 1 1) reachable_ejemplo0

lemma reachable_ejemplo2 : Reachable invEjemplo2 :=
  Reachable.step invEjemplo1 (Op.anadir "Pencil".toList 2 2) reachable_ejemplo1

/-! ### The claims -/

/-- C1: index/store convergence.  In every state reachable from a freshly
rebuilt layer — i.e. after any sequence of create, update and delete calls —
the `_productos_por_id` cache holds, id for id, exactly the rows of the
persistent `productos` table (same name, quantity and price), and each cached
record carries its own key as its id. -/
theorem C1_convergencia (inv : Inventario) (h : Reachable inv) (i : Nat) :
    Option.map rowOf (AList.lookup i inv.productos_por_id) = AList.lookup i inv.store ∧
    (∀ p, AList.lookup i inv.productos_por_id = some p → p.id = some i) :=
  ⟨(reachable_wf inv h).matchesStore i,
    fun p hp => (reachable_wf inv h).idCoherent i p hp⟩

theorem C1_witness :
    Option.map rowOf (AList.lookup 1 invEjemplo1.productos_por_id) =
      AList.lookup 1 invEjemplo1.store :=
  (C1_convergencia invEjemplo1 reachable_ejemplo1 1).1

/-- C2: negative rejection with no state change.  For every name, id and
state, `anadir_producto` with a negative quantity or price, and
`actualizar_cantidad` / `actualizar_precio` with a negative value, raise
`ValueError` (the id is never consulted, so this holds for absent ids too) and
the resulting state of the façade call is exactly the prior state: store,
`_productos_por_id` and `_nombre_idx` untouched. -/
theorem C2_rechazo_negativos (inv : Inventario) (nombre : Cadena) (c : Int)
    (pr : Rat) (i j : Nat) (h : c < 0 ∨ pr < 0) :
    anadir_producto inv nombre c pr =
      Except.error "Cantidad y precio deben ser >= 0." ∧
    applyOp inv (Op.anadir nombre c pr) = inv ∧
    (c < 0 →
      actualizar_cantidad inv i c = Except.error "La cantidad debe ser >= 0." ∧
      applyOp inv (Op.actCantidad i c) = inv) ∧
    (pr < 0 →
      actualizar_precio inv j pr = Except.error "El precio debe ser >= 0." ∧
      applyOp inv (Op.actPrecio j pr) = inv) := by
  refine ⟨?_, ?_, fun hc => ⟨?_, ?_⟩, fun hpr => ⟨?_, ?_⟩⟩
  · unfold anadir_producto
    rw [if_pos h]
  · simp only [applyOp, anadir_producto, if_pos h]
  · unfold actualizar_cantidad
    rw [if_pos hc]
  · simp only [applyOp, actualizar_cantidad, if_pos hc]
  · unfold actualizar_precio
    rw [if_pos hpr]
  · simp only [applyOp, actualizar_precio, if_pos hpr]

theorem C2_witness :
    anadir_producto invEjemplo0 "a".toList (-1) 5 =
      Except.error "Cantidad y precio deben ser >= 0." ∧
    applyOp invEjemplo0 (Op.anadir "a".toList (-1) 5) = invEjemplo0 :=
  ⟨(C2_rechazo_negativos invEjemplo0 "a".toList (-1) 5 0 0 (Or.inl (by decide))).1,
    (C2_rechazo_negativos invEjemplo0 "a".toList (-1) 5 0 0 (Or.inl (by decide))).2.1⟩

/-- C6: no empty name-sets.  Each of `_indexar`, `_desindexar` and
`_reindexar_nombre` preserves the invariant that every key present in
`_nombre_idx` maps to a non-empty set (an entry whose set empties out is
removed), and every state reachable from a rebuild through any façade calls
satisfies it. -/
theorem C6_sin_conjuntos_vacios :
    (∀ inv p, sinVacios inv → sinVacios (_indexar inv p)) ∧
    (∀ inv p, sinVacios inv → sinVacios (_desindexar inv p)) ∧
    (∀ inv p na, sinVacios inv → sinVacios (_reindexar_nombre inv p na)) ∧
    (∀ inv, Reachable inv → sinVacios inv) :=
  ⟨indexar_sinVacios, desindexar_sinVacios, reindexar_sinVacios,
    fun inv h => (reachable_wf inv h).idxNonempty⟩

theorem C6_witness : ({1} : Finset Nat) ≠ ∅ :=
  C6_sin_conjuntos_vacios.2.2.2 invEjemplo1 reachable_ejemplo1 "pen".toList {1}
    (by decide)

/-- C7: delete of an absent id is a pure no-op — it returns `false` and the
whole state (store and both caches) is exactly the prior one; delete of a
present id returns `true`, removes the row from the table, removes the entry
from `_productos_por_id` and removes the id from every name-set. -/
theorem C7_eliminar (inv : Inventario) (i : Nat) :
    (AList.lookup i inv.productos_por_id = none →
      eliminar_producto inv i = (inv, false)) ∧
    (Reachable inv → ∀ p, AList.lookup i inv.productos_por_id = some p →
      (eliminar_producto inv i).2 = true ∧
      AList.lookup i (eliminar_producto inv i).1.store = none ∧
      AList.lookup i (eliminar_producto inv i).1.productos_por_id = none ∧
      ∀ k s, AList.lookup k (eliminar_producto inv i).1.nombre_idx = some s →
        i ∉ s) := by
  constructor
  · intro hl
    unfold eliminar_producto
    rw [hl]
  · intro hR p hl
    have w := reachable_wf inv hR
    have hid := w.idCoherent i p hl
    rcases w.idxComplete i p hl with ⟨t, ht, hit⟩
    simp only [eliminar_producto, hl]
    refine ⟨trivial, ?_, ?_, ?_⟩
    · rw [desindexar_store, lookup_erase_const, if_pos rfl]
    · rw [desindexar_byId _ p i hid, if_pos rfl]
    · intro k s hk
      rw [desindexar_idx_some { inv with store := AList.erase i inv.store }
        p i hid t ht k] at hk
      by_cases hkk : k = _normaliza p.nombre
      · rw [if_pos hkk] at hk
        by_cases hemp : t.erase i = ∅
        · rw [if_pos hemp] at hk
          cases hk
        · rw [if_neg hemp] at hk
          cases hk
          exact Finset.not_mem_erase i t
      · rw [if_neg hkk] at hk
        intro hmem
        rcases w.idxSound k s i hk hmem with ⟨q, hq, hqk⟩
        rw [hl] at hq
        cases hq
        exact hkk hqk.symm

theorem C7_witness : eliminar_producto invEjemplo0 5 = (invEjemplo0, false) :=
  (C7_eliminar invEjemplo0 5).1 (by decide)

/-- C8: `listar_todos` returns precisely the cached products (a permutation of
the values of `_productos_por_id`), sorted ascending by the key `p.id or 0`,
i.e. ascending id with an unset id counted as the minimum 0.  This holds in
every state, whatever the insertion order was. -/
theorem C8_listar_ordenado (inv : Inventario) :
    (listar_todos inv).Perm (inv.productos_por_id.entries.map Sigma.snd) ∧
    (listar_todos inv).Sorted (fun p q : Producto => p.id.getD 0 ≤ q.id.getD 0) := by
  constructor
  · exact List.mergeSort_perm _ _
  · have hs := @List.sorted_mergeSort Producto
      (fun p q => decide (p.id.getD 0 ≤ q.id.getD 0))
      (fun a b c h1 h2 => decide_eq_true
        (Nat.le_trans (of_decide_eq_true h1) (of_decide_eq_true h2)))
      (fun a b => by
        rcases Nat.le_total (a.id.getD 0) (b.id.getD 0) with hab | hab
        · have h1 : (fun p q : Producto => decide (p.id.getD 0 ≤ q.id.getD 0)) a b = true :=
            decide_eq_true hab
          rw [h1]
          rfl
        · have h1 : (fun p q : Producto => decide (p.id.getD 0 ≤ q.id.getD 0)) b a = true :=
            decide_eq_true hab
          rw [h1]
          exact Bool.or_true _)
      (inv.productos_por_id.entries.map Sigma.snd)
    exact List.Pairwise.imp (fun hab => of_decide_eq_true hab) hs

/-- C9: cross-index consistency.  In every reachable state: every id listed
in a name-set of `_nombre_idx` is a key of `_productos_por_id` and the
normalization of its cached name is exactly that key; conversely every cached
id belongs to the set keyed by the normalization of its own name, and to no
other set. -/
theorem C9_indices_coherentes (inv : Inventario) (h : Reachable inv) :
    (∀ k s i, AList.lookup k inv.nombre_idx = some s → i ∈ s →
      ∃ p, AList.lookup i inv.productos_por_id = some p ∧
        _normaliza p.nombre = k) ∧
    (∀ i p, AList.lookup i inv.productos_por_id = some p →
      (∃ s, AList.lookup (_normaliza p.nombre) inv.nombre_idx = some s ∧ i ∈ s) ∧
      (∀ k s, AList.lookup k inv.nombre_idx = some s → i ∈ s →
        k = _normaliza p.nombre)) := by
  have w := reachable_wf inv h
  refine ⟨w.idxSound, fun i p hp => ⟨w.idxComplete i p hp, ?_⟩⟩
  intro k s hk hi
  rcases w.idxSound k s i hk hi with ⟨q, hq, hqk⟩
  rw [hp] at hq
  cases hq
  exact hqk.symm

theorem C9_witness :
    ∃ p, AList.lookup 1 invEjemplo1.productos_por_id = some p ∧
      _normaliza p.nombre = "pen".toList :=
  (C9_indices_coherentes invEjemplo1 reachable_ejemplo1).1 "pen".toList {1} 1
    (by decide) (by decide)

/-- C3: `buscar_por_nombre` tier exclusivity.  In every reachable state, when
the set under the normalized query is present (and hence non-empty), the
result is exactly the products whose ids are in that set; only when the set is
absent (or, hypothetically, empty — a case reachable states rule out) is the
result exactly the substring scan.  The two result kinds are never mixed. -/
theorem C3_busqueda_exclusiva (inv : Inventario) (h : Reachable inv)
    (consulta : Cadena) :
    (∀ s, AList.lookup (_normaliza consulta) inv.nombre_idx = some s →
      s.Nonempty →
      ∀ p, p ∈ buscar_por_nombre inv consulta ↔
        ∃ i ∈ s, AList.lookup i inv.productos_por_id = some p) ∧
    ((AList.lookup (_normaliza consulta) inv.nombre_idx = none ∨
        AList.lookup (_normaliza consulta) inv.nombre_idx = some ∅) →
      ∀ p, p ∈ buscar_por_nombre inv consulta ↔
        p ∈ inv.productos_por_id.entries.map Sigma.snd ∧
          esSubcadena (_normaliza consulta) (_normaliza p.nombre) = true) := by
  have w := reachable_wf inv h
  constructor
  · intro s hs hne
    refine buscar_exact inv consulta s hs hne ?_
    intro i hi
    rcases w.idxSound _ s i hs hi with ⟨p, hp, _⟩
    exact ⟨p, hp⟩
  · intro hcase p
    cases hcase with
    | inl hnone =>
      rw [buscar_fallback inv consulta hnone]
      exact List.mem_filter
    | inr hempty =>
      exact absurd rfl (w.idxNonempty _ ∅ hempty)

theorem C3_witness :
    (⟨some 1, "Pen".toList, 1, 1⟩ : Producto) ∈
        buscar_por_nombre invEjemplo2 "pen".toList ↔
      ∃ i ∈ ({1} : Finset Nat),
        AList.lookup i invEjemplo2.productos_por_id =
          some ⟨some 1, "Pen".toList, 1, 1⟩ :=
  (C3_busqueda_exclusiva invEjemplo2 reachable_ejemplo2 "pen".toList).1
    {1} (by decide) (by decide) ⟨some 1, "Pen".toList, 1, 1⟩

/-- C10: a query that is empty or all whitespace normalizes to the empty
string; when no cached name normalizes to the empty string the exact tier
finds nothing, and the fallback substring scan matches every product (the
empty string is a substring of everything), so `buscar_por_nombre` returns
the whole inventory. -/
theorem C10_consulta_vacia (inv : Inventario) (h : Reachable inv)
    (consulta : Cadena) (hq : _normaliza consulta = [])
    (hnames : ∀ e ∈ inv.productos_por_id.entries,
      _normaliza (Sigma.snd e).nombre ≠ ([] : Cadena)) :
    buscar_por_nombre inv consulta = inv.productos_por_id.entries.map Sigma.snd := by
  have w := reachable_wf inv h
  have hnone : AList.lookup (_normaliza consulta) inv.nombre_idx = none := by
    cases hk : AList.lookup (_normaliza consulta) inv.nombre_idx with
    | none => rfl
    | some s =>
      rcases Finset.nonempty_iff_ne_empty.mpr (w.idxNonempty _ s hk) with ⟨i, hi⟩
      rcases w.idxSound _ s i hk hi with ⟨p, hp, hpk⟩
      have hpe : p ∈ inv.productos_por_id.entries.map Sigma.snd :=
        (mem_values_iff _ p).mpr ⟨i, hp⟩
      rcases List.mem_map.mp hpe with ⟨e, he, hep⟩
      have hne := hnames e he
      rw [hep] at hne
      rw [hq] at hpk
      exact absurd hpk hne
  rw [buscar_fallback inv consulta hnone]
  simp only [hq]
  refine List.filter_eq_self.mpr ?_
  intro p _
  exact esSubcadena_nil (_normaliza p.nombre)

theorem C10_witness :
    buscar_por_nombre invEjemplo2 "  ".toList =
      invEjemplo2.productos_por_id.entries.map Sigma.snd :=
  C10_consulta_vacia invEjemplo2 reachable_ejemplo2 "  ".toList (by decide)
    (by decide)

/-- C4 counterexample: the claim "after rename(id, X), findByName(oldName)
excludes the id" fails.  With the single product "Pen" (id 1) renamed to
"Pencil" (normalizations differ, so the claim applies), the query "Pen" finds
no exact entry, falls back to the substring scan, and "pen" is a substring of
"pencil" — so the renamed product is still returned under its old name. -/
theorem C4_contraejemplo :
    _normaliza "Pen".toList ≠ _normaliza "Pencil".toList ∧
    (actualizar_nombre invEjemplo1 1 "Pencil".toList).2 = true ∧
    buscar_por_nombre (applyOp invEjemplo1 (Op.actNombre 1 "Pencil".toList))
        "Pen".toList =
      [⟨some 1, "Pencil".toList, 1, 1⟩] := by
  refine ⟨by decide, by decide, by decide⟩

/-- C4 amended: after a successful rename of id `i` from `p.nombre` to the
(already trimmed) name `nuevo` with a different normalization, a search for
the new name includes the product with id `i`; a search for the old name
excludes it PROVIDED the normalized old name is not a substring of the
normalized new name (otherwise the fallback scan can still return it, as the
counterexample shows). -/
theorem C4_renombrado (inv : Inventario) (h : Reachable inv) (i : Nat)
    (p : Producto) (nuevo : Cadena)
    (hl : AList.lookup i inv.productos_por_id = some p)
    (htrim : strip nuevo = nuevo)
    (hdiff : _normaliza p.nombre ≠ _normaliza nuevo)
    (hnosub : esSubcadena (_normaliza p.nombre) (_normaliza nuevo) = false) :
    (actualizar_nombre inv i nuevo).2 = true ∧
    (∃ q ∈ buscar_por_nombre (actualizar_nombre inv i nuevo).1 nuevo,
      q.id = some i) ∧
    (∀ q ∈ buscar_por_nombre (actualizar_nombre inv i nuevo).1 p.nombre,
      q.id ≠ some i) := by
  have w := reachable_wf inv h
  have hR2 : Reachable (actualizar_nombre inv i nuevo).1 :=
    Reachable.step inv (Op.actNombre i nuevo) h
  have w2 := reachable_wf _ hR2
  have hbyId := actNombre_byId inv w i nuevo p hl
  have hl2 : AList.lookup i (actualizar_nombre inv i nuevo).1.productos_por_id =
      some { p with nombre := strip nuevo } := by
    rw [hbyId i, if_pos rfl]
  have hnorm2 : _normaliza ({ p with nombre := strip nuevo } : Producto).nombre =
      _normaliza nuevo := by
    show _normaliza (strip nuevo) = _normaliza nuevo
    rw [htrim]
  have hpid : p.id = some i := w.idCoherent i p hl
  refine ⟨?_, ?_, ?_⟩
  · simp only [actualizar_nombre, hl]
  · rcases w2.idxComplete i _ hl2 with ⟨s, hs, his⟩
    rw [hnorm2] at hs
    have hmem := buscar_exact _ nuevo s hs ⟨i, his⟩ ?_
    · refine ⟨{ p with nombre := strip nuevo }, (hmem _).mpr ⟨i, his, hl2⟩, hpid⟩
    · intro j hj
      rcases w2.idxSound _ s j hs hj with ⟨q, hq, _⟩
      exact ⟨q, hq⟩
  · intro q hq hqid
    cases hcase : AList.lookup (_normaliza p.nombre)
        (actualizar_nombre inv i nuevo).1.nombre_idx with
    | some s2 =>
      have hne2 : s2.Nonempty :=
        Finset.nonempty_iff_ne_empty.mpr (w2.idxNonempty _ s2 hcase)
      have hmem := buscar_exact _ p.nombre s2 hcase hne2 ?_
      · rcases (hmem q).mp hq with ⟨j, hj, hqj⟩
        have hqid2 : q.id = some j := w2.idCoherent j q hqj
        rw [hqid] at hqid2
        have hij : i = j := Option.some.inj hqid2
        rw [← hij] at hj
        rcases w2.idxSound _ s2 i hcase hj with ⟨q2, hq2, hq2k⟩
        rw [hl2] at hq2
        have hq2e := Option.some.inj hq2
        rw [← hq2e] at hq2k
        rw [hnorm2] at hq2k
        exact hdiff hq2k.symm
      · intro j hj
        rcases w2.idxSound _ s2 j hcase hj with ⟨q2, hq2, _⟩
        exact ⟨q2, hq2⟩
    | none =>
      rw [buscar_fallback _ p.nombre hcase] at hq
      rcases List.mem_filter.mp hq with ⟨hqv, hqsub⟩
      rcases (mem_values_iff _ q).mp hqv with ⟨j, hqj⟩
      have hqid2 : q.id = some j := w2.idCoherent j q hqj
      rw [hqid] at hqid2
      have hij : i = j := Option.some.inj hqid2
      rw [← hij] at hqj
      rw [hl2] at hqj
      have hqe := Option.some.inj hqj
      rw [← hqe] at hqsub
      rw [hnorm2] at hqsub
      rw [hqsub] at hnosub
      cases hnosub

theorem C4_witness :
    (actualizar_nombre invEjemplo1 1 "Marker".toList).2 = true ∧
    (∃ q ∈ buscar_por_nombre (actualizar_nombre invEjemplo1 1 "Marker".toList).1
        "Marker".toList, q.id = some 1) ∧
    (∀ q ∈ buscar_por_nombre (actualizar_nombre invEjemplo1 1 "Marker".toList).1
        "Pen".toList, q.id ≠ some 1) :=
  C4_renombrado invEjemplo1 reachable_ejemplo1 1 ⟨some 1, "Pen".toList, 1, 1⟩
    "Marker".toList (by decide) (by decide) (by decide) (by decide)

/-- C5 counterexample: the façade does not reject empty names.  Creating a
product whose name is all whitespace succeeds, and `_productos_por_id` then
holds an item whose (trimmed) name is the empty string. -/
theorem C5_contraejemplo :
    AList.lookup 1 (applyOp invEjemplo0
        (Op.anadir "   ".toList 1 1)).productos_por_id =
      some ⟨some 1, [], 1, 1⟩ := by decide

/-- C5 amended: every name stored through create or rename is the trimmed
input — trimming on every set does hold — but a name that is empty or becomes
empty after trimming is accepted rather than rejected, so items in
`_productos_por_id` can carry the empty name. -/
theorem C5_nombres_recortados (inv : Inventario) (nombre : Cadena) (c : Int)
    (pr : Rat) (i : Nat) (nuevo : Cadena) :
    (∀ inv2 p, anadir_producto inv nombre c pr = Except.ok (inv2, p) →
      p.nombre = strip nombre ∧
      AList.lookup inv.nextId inv2.productos_por_id = some p) ∧
    (Reachable inv → ∀ p, AList.lookup i inv.productos_por_id = some p →
      AList.lookup i (actualizar_nombre inv i nuevo).1.productos_por_id =
        some { p with nombre := strip nuevo }) := by
  constructor
  · intro inv2 p hok
    unfold anadir_producto at hok
    by_cases hneg : c < 0 ∨ pr < 0
    · rw [if_pos hneg] at hok
      cases hok
    · rw [if_neg hneg] at hok
      simp only [Except.ok.injEq, Prod.mk.injEq] at hok
      rcases hok with ⟨hinv2, hp⟩
      rw [← hp]
      refine ⟨rfl, ?_⟩
      rw [← hinv2, indexar_byId _ _ inv.nextId rfl, if_pos rfl]
  · intro hR p hl
    rw [actNombre_byId inv (reachable_wf inv hR) i nuevo p hl i, if_pos rfl]

theorem C5_witness :
    AList.lookup 1 (actualizar_nombre invEjemplo1 1 "  X  ".toList).1.productos_por_id =
      some ⟨some 1, "X".toList, 1, 1⟩ :=
  (C5_nombres_recortados invEjemplo1 "Pen".toList 1 1 1 "  X  ".toList).2
    reachable_ejemplo1 ⟨some 1, "Pen".toList, 1, 1⟩ (by decide)
